import Mathlib

/-!
Verification of the package-import ID-remapping code in
`src/frontend/src/components/blocks/common/factory.tsx`.

The JavaScript source is embedded shallowly:
* JS objects used as string-keyed dictionaries (`newIdMap`, the per-layer
  `models` objects) become association lists in insertion order, with
  JS semantics for read (`jsGet`), write (`jsSet`: update in place or
  append) and `delete` (`jsDel`).
* `Math.random() * 16 | 0` becomes `rand k % 16` for an arbitrary
  stream `rand : Nat → Nat` of draws, threaded by an index `k`.
* `cloneDeep` becomes a structural rebuild of the document.
* The in-place mutation of the cloned document is threaded through an
  explicit state `LPState` that also carries the caller's original
  document, so that absence of mutation of the argument is a statement
  about the final state.
* The asynchronous dialog collaborators of `createBlock` / `editBlock`
  are modelled by their outcome for the call under consideration:
  an `Except String` value held in an environment record (`error`
  covers both rejection and user cancellation).
-/

namespace VC

/-- A JavaScript object used as a string-keyed dictionary:
entries in insertion order, keys unique in any object built by JS. -/
abbrev Assoc (α : Type) := List (String × α)

/-- Keys of a JS object in insertion order (`Object.keys`). -/
def keys {α : Type} (m : Assoc α) : List String := m.map Prod.fst

/-- JS property read `m[k]`: value at the first matching key. -/
def jsGet {α : Type} : Assoc α → String → Option α
  | [], _ => none
  | (k, v) :: rest, key => if k = key then some v else jsGet rest key

/-- JS property write `m[k] = v`: overwrite in place if the key exists
(keeping its position in insertion order), otherwise append at the end. -/
def jsSet {α : Type} : Assoc α → String → α → Assoc α
  | [], key, val => [(key, val)]
  | (k, v) :: rest, key, val =>
      if k = key then (k, val) :: rest else (k, v) :: jsSet rest key val

/-- JS `delete m[k]`: remove the entry with the given key. -/
def jsDel {α : Type} : Assoc α → String → Assoc α
  | [], _ => []
  | (k, v) :: rest, key => if k = key then rest else (k, v) :: jsDel rest key

/-! ### The document data model (interfaces used by `loadPackage`) -/

/-- A wire endpoint `{ block, port }`. -/
structure Endpoint where
  block : String
  port : String
deriving DecidableEq, Repr

/-- A wire `{ source, target }`. -/
structure Wire where
  source : Endpoint
  target : Endpoint
deriving DecidableEq, Repr

/-- A design block `{ id, ...attributes }`; the attributes other than
`id` are opaque to `loadPackage` and collapsed into `payload`. -/
structure Block where
  id : String
  payload : Nat
deriving DecidableEq, Repr

/-- An editor-layer model view `{ id, ...attributes }`. -/
structure Model where
  id : String
  payload : Nat
deriving DecidableEq, Repr

/-- An editor layer `{ models: { id ↦ Model } }`. -/
structure Layer where
  models : Assoc Model
deriving DecidableEq, Repr

/-- The serialized editor state `{ layers: [...] }`. -/
structure Editor where
  layers : List Layer
deriving DecidableEq, Repr

/-- The design graph `{ blocks, wires }`. -/
structure Graph where
  blocks : List Block
  wires : List Wire
deriving DecidableEq, Repr

/-- A project design `{ graph }`. -/
structure Design where
  graph : Graph
deriving DecidableEq, Repr

/-- A serialized package document `{ editor, design, package, dependencies }`
(the `package` info and `dependencies` are opaque to `loadPackage`). -/
structure PackageDoc where
  editor : Editor
  design : Design
  pkg : Nat
  dependencies : Nat
deriving DecidableEq, Repr

/-- The value `new PackageBlockModel({model, design, info, dependencies})`
returned by `loadPackage`. -/
structure PackageBlockModel where
  model : Editor
  design : Design
  info : Nat
  dependencies : Nat
deriving DecidableEq, Repr

/-! ### `cloneDeep` of the parts of the document `loadPackage` copies -/

/-- Deep copy of a block (all fields rebuilt). -/
def cloneBlock (b : Block) : Block := ⟨b.id, b.payload⟩

/-- Deep copy of a wire. -/
def cloneWire (w : Wire) : Wire :=
  ⟨⟨w.source.block, w.source.port⟩, ⟨w.target.block, w.target.port⟩⟩

/-- Deep copy of a design (`cloneDeep(originalDesign)`). -/
def cloneDesign (d : Design) : Design :=
  ⟨⟨d.graph.blocks.map cloneBlock, d.graph.wires.map cloneWire⟩⟩

/-- Deep copy of a layer model. -/
def cloneModel (m : Model) : Model := ⟨m.id, m.payload⟩

/-- Deep copy of an editor layer. -/
def cloneLayer (L : Layer) : Layer :=
  ⟨L.models.map fun e => (e.1, cloneModel e.2)⟩

/-- Deep copy of the editor state (`cloneDeep(originalEditor)`). -/
def cloneEditor (e : Editor) : Editor := ⟨e.layers.map cloneLayer⟩

/-! ### `generateNewId`: the UUID v4 template fill -/

/-- The sixteen lowercase hex digits, as produced by `r.toString(16)`
for `0 ≤ r < 16`. -/
def hexChars : List Char := "0123456789abcdef".toList

/-- `r.toString(16)` for a single value `0 ≤ r < 16`. -/
def hexDigit (n : Nat) : Char := hexChars.getD n '0'

/-- The body of `'xxxxxxxx-xxxx-4xxx-yxxx-xxxxxxxxxxxx'.replace(/[xy]/g, c => ...)`:
walk the template, replacing each `x` by a random hex digit and each `y`
by `(r & 0x3 | 0x8).toString(16)`; every other character is kept.
Returns the produced characters and the next unused index of the
random stream. -/
def replaceUuidChars (rand : Nat → Nat) : List Char → Nat → List Char × Nat
  | [], k => ([], k)
  | c :: cs, k =>
      if c = 'x' then
        let rest := replaceUuidChars rand cs (k + 1)
        (hexDigit (rand k % 16) :: rest.1, rest.2)
      else if c = 'y' then
        let rest := replaceUuidChars rand cs (k + 1)
        (hexDigit ((rand k % 16) &&& 3 ||| 8) :: rest.1, rest.2)
      else
        let rest := replaceUuidChars rand cs k
        (c :: rest.1, rest.2)

/-- `generateNewId` from `loadPackage`: fill the UUID v4 template with
draws of `Math.random() * 16 | 0`, modelled as `rand k % 16`. -/
def generateNewId (rand : Nat → Nat) (k : Nat) : String × Nat :=
  let r := replaceUuidChars rand "xxxxxxxx-xxxx-4xxx-yxxx-xxxxxxxxxxxx".toList k
  (String.mk r.1, r.2)

/-! ### The block pass of `loadPackage` -/

/-- Result of the `tempJsonModelDesign.graph.blocks.forEach` pass:
the rewritten blocks, the filled `newIdMap`, and the next random index. -/
structure GenResult where
  blocks : List Block
  idMap : Assoc String
  nextIdx : Nat
deriving Repr

/-- The `forEach` over the cloned blocks: for each block generate a new
id, record `newIdMap[block.id] = newId` (keyed by the old id), then
overwrite `block.id`. -/
def genBlocks (rand : Nat → Nat) : List Block → Nat → Assoc String → GenResult
  | [], k, m => ⟨[], m, k⟩
  | b :: bs, k, m =>
      let g := generateNewId rand k
      let rest := genBlocks rand bs g.2 (jsSet m b.id g.1)
      ⟨{ b with id := g.1 } :: rest.blocks, rest.idMap, rest.nextIdx⟩

/-- The ids generated for `n` consecutive blocks starting at random
index `k` (the values written into the blocks, in order). -/
def genIds (rand : Nat → Nat) : Nat → Nat → List String
  | 0, _ => []
  | n + 1, k => (generateNewId rand k).1 :: genIds rand n (generateNewId rand k).2

/-! ### The editor-layer pass -/

/-- Truthy lookup `newIdMap[oldId]` followed by the `if (newId)` guard:
`none` when the key is absent or the stored string is falsy (empty). -/
def mapsTo (idMap : Assoc String) (k : String) : Option String :=
  match jsGet idMap k with
  | some u => if u = "" then none else some u
  | none => none

/-- One iteration of the `Object.keys(models).forEach(oldId => ...)` body:
read `models[oldId]` and `newIdMap[oldId]`; when the latter is truthy,
set the model's own `id`, store it under the new key and delete the old
key.  (When the keys of `models` are unique — always true of a JS
object — the read `models[oldId]` never misses, because earlier
iterations delete only their own, distinct, snapshot key; a missing key
is modelled as a no-op.) -/
def stepOne (idMap : Assoc String) (ms : Assoc Model) (oldId : String) : Assoc Model :=
  match jsGet ms oldId, jsGet idMap oldId with
  | some block, some newId =>
      if newId = "" then ms
      else jsDel (jsSet ms newId { block with id := newId }) oldId
  | _, _ => ms

/-- The whole `Object.keys(models).forEach(...)` loop: the key snapshot
is taken once, before any mutation. -/
def updateModels (idMap : Assoc String) (ms : Assoc Model) : Assoc Model :=
  (keys ms).foldl (stepOne idMap) ms

/-- Apply the models rewrite to one layer. -/
def updateLayer (idMap : Assoc String) (L : Layer) : Layer :=
  ⟨updateModels idMap L.models⟩

/-- The renamed image of one layer entry, when its key is mapped:
the new key, holding the model with its own `id` overwritten. -/
def renameEntry (idMap : Assoc String) (e : String × Model) : Option (String × Model) :=
  match mapsTo idMap e.1 with
  | some u => some (u, { e.2 with id := u })
  | none => none

/-- Does the rename loop leave this entry's key alone? -/
def isUnmappedB (idMap : Assoc String) (e : String × Model) : Bool :=
  (mapsTo idMap e.1).isNone

/-- Replace the element at an index, when it exists. -/
def modifyAt {α : Type} (f : α → α) : Nat → List α → List α
  | _, [] => []
  | 0, x :: xs => f x :: xs
  | n + 1, x :: xs => x :: modifyAt f n xs

/-- `updateModelIdsInLayer(layerIndex)`: rewrite the `models` object of
`tempJsonModelEditor.layers[layerIndex]`. -/
def updateModelIdsInLayer (idMap : Assoc String) (e : Editor) (layerIndex : Nat) : Editor :=
  ⟨modifyAt (updateLayer idMap) layerIndex e.layers⟩

/-! ### The wire pass -/

/-- The body of `tempJsonModelDesign.graph.wires.forEach`: look up both
endpoints in `newIdMap` first, then overwrite each endpoint whose
lookup was truthy. -/
def updateWire (idMap : Assoc String) (w : Wire) : Wire :=
  let newSourceId := mapsTo idMap w.source.block
  let newTargetId := mapsTo idMap w.target.block
  let w1 := match newSourceId with
    | some u => { w with source := { w.source with block := u } }
    | none => w
  match newTargetId with
  | some u => { w1 with target := { w1.target with block := u } }
  | none => w1

/-! ### `loadPackage` as a state transformer -/

/-- The state of a `loadPackage` run: the caller's document together
with the working clones, the id mapping and the random-stream index. -/
structure LPState where
  orig : PackageDoc
  tempDesign : Design
  tempEditor : Editor
  newIdMap : Assoc String
  randIdx : Nat
deriving Repr

/-- Lines 157–162: destructure the argument, clone `editor` and
`design`, start with an empty `newIdMap`. -/
def initState (doc : PackageDoc) : LPState :=
  ⟨doc, cloneDesign doc.design, cloneEditor doc.editor, [], 0⟩

/-- Lines 171–176: generate new ids for all cloned blocks and fill
`newIdMap`. -/
def stepGenIds (rand : Nat → Nat) (s : LPState) : LPState :=
  let g := genBlocks rand s.tempDesign.graph.blocks s.randIdx s.newIdMap
  { s with
      tempDesign := ⟨⟨g.blocks, s.tempDesign.graph.wires⟩⟩
      newIdMap := g.idMap
      randIdx := g.nextIdx }

/-- Line 194: `[0, 1].forEach(updateModelIdsInLayer)` on the cloned
editor. -/
def stepLayers (s : LPState) : LPState :=
  { s with
      tempEditor := [0, 1].foldl (updateModelIdsInLayer s.newIdMap) s.tempEditor }

/-- Lines 197–203: rewrite the wire endpoints of the cloned design. -/
def stepWires (s : LPState) : LPState :=
  { s with
      tempDesign :=
        ⟨⟨s.tempDesign.graph.blocks,
          s.tempDesign.graph.wires.map (updateWire s.newIdMap)⟩⟩ }

/-- The final state of a `loadPackage` run. -/
def loadPackageS (rand : Nat → Nat) (doc : PackageDoc) : LPState :=
  stepWires (stepLayers (stepGenIds rand (initState doc)))

/-- `loadPackage`: run the three passes on the clones and assemble the
`PackageBlockModel`; `info` and `dependencies` are taken from the
caller's original document. -/
def loadPackage (rand : Nat → Nat) (doc : PackageDoc) : PackageBlockModel :=
  let s := loadPackageS rand doc
  ⟨s.tempEditor, s.tempDesign, s.orig.pkg, s.orig.dependencies⟩

/-- The `newIdMap` built by a `loadPackage` run. -/
def finalIdMap (rand : Nat → Nat) (doc : PackageDoc) : Assoc String :=
  (genBlocks rand doc.design.graph.blocks 0 []).idMap

/-- The ids of a design's blocks, in order. -/
def blockIds (d : Design) : List String := d.graph.blocks.map Block.id

/-- Total number of model entries across all editor layers. -/
def totalModels (e : Editor) : Nat :=
  (e.layers.map fun L => L.models.length).sum

/-! ### Syntactic UUID v4 check -/

/-- Is `c` one of the sixteen lowercase hex digits? -/
def isHexCharB (c : Char) : Bool := hexChars.contains c

/-- The UUID v4 shape: 36 characters grouped 8-4-4-4-12 by dashes, all
non-dash characters hex, version nibble `'4'`, variant nibble in
`{8, 9, a, b}`. -/
def isUuidV4B (s : String) : Bool :=
  match s.toList with
  | a1 :: a2 :: a3 :: a4 :: a5 :: a6 :: a7 :: a8 :: d1 ::
    b1 :: b2 :: b3 :: b4 :: d2 ::
    c1 :: c2 :: c3 :: c4 :: d3 ::
    e1 :: e2 :: e3 :: e4 :: d4 ::
    f1 :: f2 :: f3 :: f4 :: f5 :: f6 :: f7 :: f8 :: f9 :: f10 :: f11 :: f12 :: [] =>
      d1 == '-' && d2 == '-' && d3 == '-' && d4 == '-' &&
      c1 == '4' &&
      (e1 == '8' || e1 == '9' || e1 == 'a' || e1 == 'b') &&
      [a1, a2, a3, a4, a5, a6, a7, a8, b1, b2, b3, b4, c2, c3, c4,
       e2, e3, e4, f1, f2, f3, f4, f5, f6, f7, f8, f9, f10, f11, f12].all isHexCharB
  | _ => false

/-! ### `createBlock` / `editBlock` and their dialog collaborators -/

/-- The opaque result object produced by a dialog; the factory touches
only its `id` field, everything else is collapsed into `payload`. -/
structure DialogData where
  id : String
  name : String
  payload : Nat
deriving DecidableEq, Repr

/-- The family of view-model classes a factory call can construct. -/
inductive BlockModel where
  | constant : DialogData → BlockModel
  | code : DialogData → BlockModel
  | input : DialogData → BlockModel
  | output : DialogData → BlockModel
  | package : PackageBlockModel → BlockModel
deriving DecidableEq, Repr

/-- The collaborators of one `createBlock` / `editBlock` call, each
modelled by its outcome for this call: `Except.error` covers a rejected
promise, including user cancellation of the dialog. -/
structure Env where
  constantDialog : Except String DialogData
  codeDialog : Except String DialogData
  ioDialog : Except String DialogData
  collection : Except String PackageDoc
  uid : String
  rand : Nat → Nat

/-- `n.toString()` digit list (decimal), with enough fuel to terminate. -/
def natToDecimalAux : Nat → Nat → List Char
  | 0, _ => []
  | fuel + 1, n =>
      if n < 10 then [hexDigit n]
      else natToDecimalAux fuel (n / 10) ++ [hexDigit (n % 10)]

/-- `blockCount.toString()`. -/
def natToDecimalStr (n : Nat) : String := String.mk (natToDecimalAux (n + 1) n)

/-- `s.padStart(4, '0')`. -/
def padStart4 (s : String) : String :=
  String.mk (List.replicate (4 - s.length) '0' ++ s.data)

/-- The id written into a constant block's data:
`blockCount.toString().padStart(4, '0') + '-' + Toolkit.UID()`. -/
def constantIdFor (blockCount : Nat) (uid : String) : String :=
  padStart4 (natToDecimalStr blockCount) ++ "-" ++ uid

/-- `createBlock(name, blockCount)`: dispatch on the name; the whole
body is wrapped in `try/catch (error) { console.log(error) }`, so a
rejected dialog leaves `block` unassigned and the function returns
`undefined` — modelled as `none`. -/
def createBlock (env : Env) (name : String) (blockCount : Nat) : Option BlockModel :=
  match name with
  | "basic.constant" =>
      match env.constantDialog with
      | Except.ok data =>
          some (BlockModel.constant { data with id := constantIdFor blockCount env.uid })
      | Except.error _ => none
  | "basic.code" =>
      match env.codeDialog with
      | Except.ok data => some (BlockModel.code data)
      | Except.error _ => none
  | "basic.input" =>
      match env.ioDialog with
      | Except.ok data => some (BlockModel.input data)
      | Except.error _ => none
  | "basic.output" =>
      match env.ioDialog with
      | Except.ok data => some (BlockModel.output data)
      | Except.error _ => none
  | _ =>
      match env.collection with
      | Except.ok doc => some (BlockModel.package (loadPackage env.rand doc))
      | Except.error _ => none

/-- The run-time class of the node passed to `editBlock` (the
`instanceof` chain). -/
inductive NodeKind where
  | constant
  | code
  | input
  | output
  | other
deriving DecidableEq, Repr

/-- A node as `editBlock` sees it: its class and its current data. -/
structure Node where
  kind : NodeKind
  data : DialogData
deriving DecidableEq, Repr

/-- `editBlock(node)`: open the dialog matching the node's class and
store its result with `setData`; the `try/catch` swallows a rejected
dialog, leaving the node as it was. -/
def editBlock (env : Env) (node : Node) : Node :=
  match node.kind with
  | NodeKind.constant =>
      match env.constantDialog with
      | Except.ok d => { node with data := d }
      | Except.error _ => node
  | NodeKind.code =>
      match env.codeDialog with
      | Except.ok d => { node with data := d }
      | Except.error _ => node
  | NodeKind.input =>
      match env.ioDialog with
      | Except.ok d => { node with data := d }
      | Except.error _ => node
  | NodeKind.output =>
      match env.ioDialog with
      | Except.ok d => { node with data := d }
      | Except.error _ => node
  | NodeKind.other => node

/-! ### Concrete values used by witnesses and counterexamples -/

/-- A degenerate random stream: every draw is 0. -/
def randZero : Nat → Nat := fun _ => 0

/-- The identity random stream (draw `k` is `k`). -/
def randSeq : Nat → Nat := fun n => n

/-- The UUID generated from the all-zero stream (any start index). -/
def uuidZero : String := "00000000-0000-4000-8000-000000000000"

/-- The first UUID generated from `randSeq` at index 0. -/
def uuidSeqA : String := "01234567-89ab-4cde-b012-3456789abcde"

/-- The second UUID generated from `randSeq` (start index 31). -/
def uuidSeqB : String := "f0123456-789a-4bcd-af01-23456789abcd"

/-- One block whose id is itself `uuidZero`, with a matching layer
model: under `randZero` the generated id collides with the old one. -/
def docCollide : PackageDoc :=
  ⟨⟨[⟨[(uuidZero, ⟨uuidZero, 7⟩)]⟩, ⟨[]⟩]⟩,
   ⟨⟨[⟨uuidZero, 0⟩], []⟩⟩, 0, 0⟩

/-- Two blocks with distinct ids and no editor state. -/
def docTwo : PackageDoc :=
  ⟨⟨[]⟩, ⟨⟨[⟨"a", 0⟩, ⟨"b", 0⟩], []⟩⟩, 0, 0⟩

/-- One block with a self-loop wire. -/
def docLoop : PackageDoc :=
  ⟨⟨[]⟩, ⟨⟨[⟨"a", 0⟩], [⟨⟨"a", "p"⟩, ⟨"a", "p"⟩⟩]⟩⟩, 0, 0⟩

/-- One block `"a"` and a layer that also holds a model under the key
`uuidZero`, which `"a"` is renamed to under `randZero`. -/
def docOverwrite : PackageDoc :=
  ⟨⟨[⟨[("a", ⟨"a", 1⟩), (uuidZero, ⟨uuidZero, 2⟩)]⟩, ⟨[]⟩]⟩,
   ⟨⟨[⟨"a", 0⟩], []⟩⟩, 0, 0⟩

/-- One block `"a"`, a wire with a dangling `"orphan"` source, and a
layer holding a mapped key `"a"` and an unmapped key `"keep"`. -/
def docPass : PackageDoc :=
  ⟨⟨[⟨[("a", ⟨"a", 1⟩), ("keep", ⟨"keep", 2⟩)]⟩, ⟨[]⟩]⟩,
   ⟨⟨[⟨"a", 0⟩], [⟨⟨"orphan", "p"⟩, ⟨"a", "q"⟩⟩]⟩⟩, 0, 0⟩

/-- A dialog result used by concrete environments. -/
def dataC : DialogData := ⟨"orig-id", "c1", 5⟩

/-- Environment in which every dialog succeeds with `dataC`. -/
def envOk : Env :=
  ⟨Except.ok dataC, Except.ok dataC, Except.ok dataC, Except.ok docTwo, "u0", randSeq⟩

/-- Environment in which every collaborator fails (user cancelled). -/
def envErr : Env :=
  ⟨Except.error "cancelled", Except.error "cancelled", Except.error "cancelled",
   Except.error "cancelled", "u0", randSeq⟩

/-! ## Lemmas about the JS dictionary operations -/

theorem keys_cons {α : Type} (e : String × α) (rest : Assoc α) :
    keys (e :: rest) = e.1 :: keys rest := rfl

theorem keys_append {α : Type} (A B : Assoc α) :
    keys (A ++ B) = keys A ++ keys B := List.map_append _ _ _

theorem jsGet_eq_none_of_not_mem {α : Type} {x : String} :
    ∀ {m : Assoc α}, x ∉ keys m → jsGet m x = none := by
  intro m
  induction m with
  | nil => intro _; rfl
  | cons e rest ih =>
      obtain ⟨ke, ve⟩ := e
      intro h
      rw [keys_cons, List.mem_cons] at h
      push_neg at h
      simp only [jsGet]
      rw [if_neg (fun hk => h.1 hk.symm), ih h.2]

theorem jsGet_isSome_of_mem {α : Type} {x : String} :
    ∀ {m : Assoc α}, x ∈ keys m → (jsGet m x).isSome := by
  intro m
  induction m with
  | nil => intro h; simp [keys] at h
  | cons e rest ih =>
      obtain ⟨ke, ve⟩ := e
      intro h
      simp only [jsGet]
      by_cases hk : ke = x
      · simp [hk]
      · rw [if_neg hk]
        rw [keys_cons, List.mem_cons] at h
        rcases h with h | h
        · exact absurd h.symm hk
        · exact ih h

theorem jsGet_jsSet {α : Type} (k x : String) (v : α) :
    ∀ (m : Assoc α), jsGet (jsSet m k v) x = if x = k then some v else jsGet m x := by
  intro m
  induction m with
  | nil =>
      by_cases hx : x = k
      · subst hx; simp [jsSet, jsGet]
      · have hkx : ¬k = x := fun h => hx h.symm
        simp [jsSet, jsGet, hx, hkx]
  | cons e rest ih =>
      obtain ⟨ke, ve⟩ := e
      simp only [jsSet]
      by_cases hek : ke = k
      · subst hek
        by_cases hx : x = ke
        · subst hx; simp [jsGet]
        · have hkx : ¬ke = x := fun h => hx h.symm
          simp [jsGet, hx, hkx]
      · rw [if_neg hek]
        simp only [jsGet]
        by_cases hkex : ke = x
        · subst hkex
          rw [if_pos rfl, if_neg hek, if_pos rfl]
        · rw [if_neg hkex, if_neg hkex, ih]

theorem jsSet_eq_append_of_not_mem {α : Type} {k : String} (v : α) :
    ∀ {m : Assoc α}, k ∉ keys m → jsSet m k v = m ++ [(k, v)] := by
  intro m
  induction m with
  | nil => intro _; rfl
  | cons e rest ih =>
      obtain ⟨ke, ve⟩ := e
      intro h
      rw [keys_cons, List.mem_cons] at h
      push_neg at h
      simp only [jsSet]
      rw [if_neg (fun hk => h.1 hk.symm), ih h.2, List.cons_append]

theorem jsGet_jsDel_ne {α : Type} {k x : String} (h : x ≠ k) :
    ∀ (m : Assoc α), jsGet (jsDel m k) x = jsGet m x := by
  intro m
  induction m with
  | nil => rfl
  | cons e rest ih =>
      obtain ⟨ke, ve⟩ := e
      simp only [jsDel]
      by_cases hek : ke = k
      · subst hek
        rw [if_pos rfl]
        simp only [jsGet]
        rw [if_neg (fun hk : ke = x => h (hk.symm))]
      · rw [if_neg hek]
        simp only [jsGet]
        by_cases hkex : ke = x
        · rw [if_pos hkex, if_pos hkex]
        · rw [if_neg hkex, if_neg hkex, ih]

theorem jsDel_sublist {α : Type} (k : String) :
    ∀ (m : Assoc α), (jsDel m k).Sublist m := by
  intro m
  induction m with
  | nil => exact List.Sublist.refl _
  | cons e rest ih =>
      simp only [jsDel]
      by_cases hek : e.1 = k
      · rw [if_pos hek]
        exact List.Sublist.cons _ (List.Sublist.refl rest)
      · rw [if_neg hek]
        exact List.Sublist.cons₂ _ ih

theorem keys_sublist_of_sublist {α : Type} {m m' : Assoc α} (h : m'.Sublist m) :
    (keys m').Sublist (keys m) := h.map Prod.fst

theorem jsGet_jsDel_self {α : Type} {k : String} :
    ∀ {m : Assoc α}, (keys m).Nodup → jsGet (jsDel m k) k = none := by
  intro m
  induction m with
  | nil => intro _; rfl
  | cons e rest ih =>
      obtain ⟨ke, ve⟩ := e
      intro h
      rw [keys_cons, List.nodup_cons] at h
      simp only [jsDel]
      by_cases hek : ke = k
      · subst hek
        rw [if_pos rfl]
        exact jsGet_eq_none_of_not_mem h.1
      · rw [if_neg hek]
        simp only [jsGet]
        rw [if_neg hek]
        exact ih h.2

theorem jsDel_append {α : Type} {k : String} (rest : Assoc α) (v : α) :
    ∀ {pre : Assoc α}, k ∉ keys pre → jsDel (pre ++ (k, v) :: rest) k = pre ++ rest := by
  intro pre
  induction pre with
  | nil => intro _; simp [jsDel]
  | cons e p ih =>
      obtain ⟨ke, ve⟩ := e
      intro h
      rw [keys_cons, List.mem_cons] at h
      push_neg at h
      rw [List.cons_append]
      simp only [jsDel]
      rw [if_neg (fun hk => h.1 hk.symm), ih h.2, List.cons_append]

theorem jsGet_append {α : Type} (B : Assoc α) (x : String) :
    ∀ (A : Assoc α),
      jsGet (A ++ B) x =
        match jsGet A x with
        | some v => some v
        | none => jsGet B x := by
  intro A
  induction A with
  | nil => rfl
  | cons e rest ih =>
      obtain ⟨ke, ve⟩ := e
      rw [List.cons_append]
      simp only [jsGet]
      by_cases hex : ke = x
      · rw [if_pos hex, if_pos hex]
      · rw [if_neg hex, if_neg hex, ih]

theorem jsGet_append_of_not_mem_left {α : Type} {A : Assoc α} {x : String}
    (B : Assoc α) (h : x ∉ keys A) : jsGet (A ++ B) x = jsGet B x := by
  rw [jsGet_append, jsGet_eq_none_of_not_mem h]

/-! ## The deep copy is the identity on pure document trees -/

theorem cloneBlock_eq : cloneBlock = id := funext fun _ => rfl

theorem cloneWire_eq : cloneWire = id := funext fun _ => rfl

theorem cloneDesign_eq (d : Design) : cloneDesign d = d := by
  obtain ⟨⟨blocks, wires⟩⟩ := d
  simp only [cloneDesign, cloneBlock_eq, cloneWire_eq, List.map_id]

theorem cloneLayer_eq : cloneLayer = id := by
  funext L
  obtain ⟨models⟩ := L
  simp only [cloneLayer]
  rw [show (fun e : String × Model => (e.1, cloneModel e.2)) = id from funext fun _ => rfl,
    List.map_id]
  rfl

theorem cloneEditor_eq (e : Editor) : cloneEditor e = e := by
  obtain ⟨layers⟩ := e
  simp only [cloneEditor, cloneLayer_eq, List.map_id]

/-! ## The generated ids -/

theorem replaceUuidChars_length (rand : Nat → Nat) :
    ∀ (cs : List Char) (k : Nat), ((replaceUuidChars rand cs k).1).length = cs.length := by
  intro cs
  induction cs with
  | nil => intro k; rfl
  | cons c rest ih =>
      intro k
      by_cases hx : c = 'x'
      · simp [replaceUuidChars, hx, ih]
      · by_cases hy : c = 'y'
        · simp [replaceUuidChars, hx, hy, ih]
        · simp [replaceUuidChars, hx, hy, ih]

theorem generateNewId_length (rand : Nat → Nat) (k : Nat) :
    ((generateNewId rand k).1).length = 36 := by
  have h := replaceUuidChars_length rand "xxxxxxxx-xxxx-4xxx-yxxx-xxxxxxxxxxxx".toList k
  simpa [generateNewId, String.length] using h

theorem generateNewId_ne_empty (rand : Nat → Nat) (k : Nat) :
    (generateNewId rand k).1 ≠ "" := by
  intro h
  have := generateNewId_length rand k
  rw [h] at this
  simp [String.length] at this

/-- The result of one template fill, written out position by position. -/
theorem generateNewId_explicit (rand : Nat → Nat) (k : Nat) :
    (generateNewId rand k).1 = String.mk
      [hexDigit (rand k % 16), hexDigit (rand (k+1) % 16), hexDigit (rand (k+2) % 16),
       hexDigit (rand (k+3) % 16), hexDigit (rand (k+4) % 16), hexDigit (rand (k+5) % 16),
       hexDigit (rand (k+6) % 16), hexDigit (rand (k+7) % 16), '-',
       hexDigit (rand (k+8) % 16), hexDigit (rand (k+9) % 16), hexDigit (rand (k+10) % 16),
       hexDigit (rand (k+11) % 16), '-', '4',
       hexDigit (rand (k+12) % 16), hexDigit (rand (k+13) % 16), hexDigit (rand (k+14) % 16),
       '-',
       hexDigit ((rand (k+15) % 16) &&& 3 ||| 8),
       hexDigit (rand (k+16) % 16), hexDigit (rand (k+17) % 16), hexDigit (rand (k+18) % 16),
       '-',
       hexDigit (rand (k+19) % 16), hexDigit (rand (k+20) % 16), hexDigit (rand (k+21) % 16),
       hexDigit (rand (k+22) % 16), hexDigit (rand (k+23) % 16), hexDigit (rand (k+24) % 16),
       hexDigit (rand (k+25) % 16), hexDigit (rand (k+26) % 16), hexDigit (rand (k+27) % 16),
       hexDigit (rand (k+28) % 16), hexDigit (rand (k+29) % 16), hexDigit (rand (k+30) % 16)]
    := rfl

theorem hexDigit_lt_isHex : ∀ m, m < 16 → isHexCharB (hexDigit m) = true := by decide

theorem hexDigit_mod_isHex (n : Nat) : isHexCharB (hexDigit (n % 16)) = true :=
  hexDigit_lt_isHex _ (Nat.mod_lt _ (by decide))

theorem hexDigit_variant_lt : ∀ m, m < 16 →
    ((hexDigit (m &&& 3 ||| 8) == '8') || (hexDigit (m &&& 3 ||| 8) == '9') ||
     (hexDigit (m &&& 3 ||| 8) == 'a') || (hexDigit (m &&& 3 ||| 8) == 'b')) = true := by
  decide

theorem hexDigit_variant_mod (n : Nat) :
    ((hexDigit (n % 16 &&& 3 ||| 8) == '8') || (hexDigit (n % 16 &&& 3 ||| 8) == '9') ||
     (hexDigit (n % 16 &&& 3 ||| 8) == 'a') || (hexDigit (n % 16 &&& 3 ||| 8) == 'b')) = true :=
  hexDigit_variant_lt _ (Nat.mod_lt _ (by decide))

theorem isUuidV4B_generateNewId (rand : Nat → Nat) (k : Nat) :
    isUuidV4B (generateNewId rand k).1 = true := by
  rw [generateNewId_explicit]
  simp only [isUuidV4B, String.toList, List.all_cons, List.all_nil,
    hexDigit_mod_isHex, hexDigit_variant_mod, Bool.and_true, Bool.true_and, beq_self_eq_true]

theorem genBlocks_ids (rand : Nat → Nat) :
    ∀ (bs : List Block) (k : Nat) (m : Assoc String),
      (genBlocks rand bs k m).blocks.map Block.id = genIds rand bs.length k := by
  intro bs
  induction bs with
  | nil => intro k m; rfl
  | cons b rest ih =>
      intro k m
      simp only [genBlocks, List.map_cons, List.length_cons, genIds, ih]

theorem genIds_length (rand : Nat → Nat) :
    ∀ (n k : Nat), (genIds rand n k).length = n := by
  intro n
  induction n with
  | zero => intro k; rfl
  | succ n ih => intro k; simp only [genIds, List.length_cons, ih]

theorem genBlocks_blocks_length (rand : Nat → Nat)
    (bs : List Block) (k : Nat) (m : Assoc String) :
    (genBlocks rand bs k m).blocks.length = bs.length := by
  have h := congrArg List.length (genBlocks_ids rand bs k m)
  rw [List.length_map, genIds_length] at h
  exact h

theorem genIds_mem (rand : Nat → Nat) :
    ∀ (n k : Nat) (u : String), u ∈ genIds rand n k → ∃ j, u = (generateNewId rand j).1 := by
  intro n
  induction n with
  | zero => intro k u h; simp [genIds] at h
  | succ n ih =>
      intro k u h
      rw [genIds, List.mem_cons] at h
      rcases h with h | h
      · exact ⟨k, h⟩
      · exact ih _ _ h

/-- The blocks of the returned design are those produced by the
block-renaming pass on the (cloned) input blocks. -/
theorem loadPackage_blocks (rand : Nat → Nat) (doc : PackageDoc) :
    (loadPackage rand doc).design.graph.blocks =
      (genBlocks rand doc.design.graph.blocks 0 []).blocks := by
  simp only [loadPackage, loadPackageS, stepWires, stepLayers, stepGenIds, initState,
    cloneDesign_eq]

/-! ## The id mapping built by the block pass -/

theorem genBlocks_map_frame (rand : Nat → Nat) :
    ∀ (bs : List Block) (k : Nat) (m : Assoc String) (x : String),
      x ∉ bs.map Block.id → jsGet (genBlocks rand bs k m).idMap x = jsGet m x := by
  intro bs
  induction bs with
  | nil => intro k m x _; rfl
  | cons b rest ih =>
      intro k m x h
      rw [List.map_cons, List.mem_cons] at h
      push_neg at h
      simp only [genBlocks]
      rw [ih _ _ _ h.2, jsGet_jsSet, if_neg h.1]

theorem genBlocks_map_values (rand : Nat → Nat) :
    ∀ (bs : List Block) (k : Nat) (m : Assoc String) (x u : String),
      jsGet (genBlocks rand bs k m).idMap x = some u →
      u ∈ genIds rand bs.length k ∨ jsGet m x = some u := by
  intro bs
  induction bs with
  | nil => intro k m x u h; exact Or.inr h
  | cons b rest ih =>
      intro k m x u h
      simp only [genBlocks] at h
      rcases ih _ _ _ _ h with h' | h'
      · exact Or.inl (by rw [List.length_cons, genIds]; exact List.mem_cons_of_mem _ h')
      · rw [jsGet_jsSet] at h'
        by_cases hx : x = b.id
        · rw [if_pos hx] at h'
          refine Or.inl ?_
          rw [List.length_cons, genIds]
          exact (Option.some.inj h') ▸ List.mem_cons_self _ _
        · rw [if_neg hx] at h'
          exact Or.inr h'

theorem genBlocks_covers (rand : Nat → Nat) :
    ∀ (bs : List Block) (k : Nat) (m : Assoc String) (x : String),
      x ∈ bs.map Block.id →
      ∃ u, jsGet (genBlocks rand bs k m).idMap x = some u ∧
        u ∈ (genBlocks rand bs k m).blocks.map Block.id := by
  intro bs
  induction bs with
  | nil => intro k m x h; simp at h
  | cons b rest ih =>
      intro k m x h
      by_cases hx : x ∈ rest.map Block.id
      · obtain ⟨u, hu1, hu2⟩ := ih (generateNewId rand k).2 (jsSet m b.id (generateNewId rand k).1) x hx
        refine ⟨u, ?_, ?_⟩
        · simp only [genBlocks]; exact hu1
        · simp only [genBlocks, List.map_cons]
          exact List.mem_cons_of_mem _ hu2
      · rw [List.map_cons, List.mem_cons] at h
        rcases h with h | h
        · refine ⟨(generateNewId rand k).1, ?_, ?_⟩
          · simp only [genBlocks]
            rw [genBlocks_map_frame rand rest _ _ _ hx, jsGet_jsSet, if_pos h]
          · simp only [genBlocks, List.map_cons]
            exact List.mem_cons_self _ _
        · exact absurd h hx

theorem genBlocks_map_inj (rand : Nat → Nat) :
    ∀ (bs : List Block) (k : Nat) (m : Assoc String),
      (∀ x y u, jsGet m x = some u → jsGet m y = some u → x = y) →
      (∀ x u, jsGet m x = some u → u ∉ genIds rand bs.length k) →
      (genIds rand bs.length k).Nodup →
      ∀ x y u, jsGet (genBlocks rand bs k m).idMap x = some u →
        jsGet (genBlocks rand bs k m).idMap y = some u → x = y := by
  intro bs
  induction bs with
  | nil => intro k m hinj _ _; exact hinj
  | cons b rest ih =>
      intro k m hinj hfresh hnodup
      rw [List.length_cons, genIds] at hfresh hnodup
      rw [List.nodup_cons] at hnodup
      simp only [genBlocks]
      apply ih
      · intro x y u hx hy
        rw [jsGet_jsSet] at hx hy
        by_cases hxb : x = b.id <;> by_cases hyb : y = b.id
        · exact hxb.trans hyb.symm
        · rw [if_pos hxb] at hx
          rw [if_neg hyb] at hy
          exact absurd (List.mem_cons_self _ _)
            ((Option.some.inj hx) ▸ hfresh y u hy)
        · rw [if_neg hxb] at hx
          rw [if_pos hyb] at hy
          exact absurd (List.mem_cons_self _ _)
            ((Option.some.inj hy) ▸ hfresh x u hx)
        · rw [if_neg hxb] at hx
          rw [if_neg hyb] at hy
          exact hinj x y u hx hy
      · intro x u hx
        rw [jsGet_jsSet] at hx
        by_cases hxb : x = b.id
        · rw [if_pos hxb] at hx
          exact (Option.some.inj hx) ▸ hnodup.1
        · rw [if_neg hxb] at hx
          exact fun hu => hfresh x u hx (List.mem_cons_of_mem _ hu)
      · exact hnodup.2

theorem finalIdMap_inj (rand : Nat → Nat) (doc : PackageDoc)
    (hnodup : (genIds rand doc.design.graph.blocks.length 0).Nodup) :
    ∀ x y u, jsGet (finalIdMap rand doc) x = some u →
      jsGet (finalIdMap rand doc) y = some u → x = y := by
  apply genBlocks_map_inj rand _ 0 []
  · intro x y u hx _
    simp [jsGet] at hx
  · intro x u hx
    simp [jsGet] at hx
  · exact hnodup

theorem finalIdMap_values (rand : Nat → Nat) (doc : PackageDoc) {x u : String}
    (h : jsGet (finalIdMap rand doc) x = some u) :
    u ∈ genIds rand doc.design.graph.blocks.length 0 := by
  rcases genBlocks_map_values rand _ _ _ _ _ h with h' | h'
  · exact h'
  · simp [jsGet] at h'

theorem finalIdMap_value_ne_empty (rand : Nat → Nat) (doc : PackageDoc) {x u : String}
    (h : jsGet (finalIdMap rand doc) x = some u) : u ≠ "" := by
  obtain ⟨j, hj⟩ := genIds_mem rand _ _ _ (finalIdMap_values rand doc h)
  exact hj ▸ generateNewId_ne_empty rand j

/-- On the map built by a run, the JS truthiness test never fires:
`mapsTo` agrees with the raw lookup. -/
theorem mapsTo_finalIdMap (rand : Nat → Nat) (doc : PackageDoc) (x : String) :
    mapsTo (finalIdMap rand doc) x = jsGet (finalIdMap rand doc) x := by
  unfold mapsTo
  cases h : jsGet (finalIdMap rand doc) x with
  | none => rfl
  | some u =>
      show (if u = "" then none else some u) = some u
      rw [if_neg (finalIdMap_value_ne_empty rand doc h)]

theorem finalIdMap_none (rand : Nat → Nat) (doc : PackageDoc) {x : String}
    (h : x ∉ blockIds doc.design) : jsGet (finalIdMap rand doc) x = none := by
  unfold finalIdMap
  rw [genBlocks_map_frame rand _ _ _ _ h]
  rfl

theorem finalIdMap_covers (rand : Nat → Nat) (doc : PackageDoc) {x : String}
    (h : x ∈ blockIds doc.design) :
    ∃ u, jsGet (finalIdMap rand doc) x = some u ∧
      u ∈ blockIds (loadPackage rand doc).design := by
  obtain ⟨u, hu1, hu2⟩ := genBlocks_covers rand doc.design.graph.blocks 0 [] x h
  exact ⟨u, hu1, by rw [blockIds, loadPackage_blocks]; exact hu2⟩

/-! ## The wire pass -/

theorem loadPackage_wires (rand : Nat → Nat) (doc : PackageDoc) :
    (loadPackage rand doc).design.graph.wires =
      doc.design.graph.wires.map (updateWire (finalIdMap rand doc)) := by
  simp only [loadPackage, loadPackageS, stepWires, stepLayers, stepGenIds, initState,
    cloneDesign_eq, finalIdMap]

theorem updateWire_source (idMap : Assoc String) (w : Wire) :
    (updateWire idMap w).source.block =
      match mapsTo idMap w.source.block with
      | some u => u
      | none => w.source.block := by
  unfold updateWire
  cases hs : mapsTo idMap w.source.block <;>
    cases ht : mapsTo idMap w.target.block <;> simp [hs, ht]

theorem updateWire_target (idMap : Assoc String) (w : Wire) :
    (updateWire idMap w).target.block =
      match mapsTo idMap w.target.block with
      | some u => u
      | none => w.target.block := by
  unfold updateWire
  cases hs : mapsTo idMap w.source.block <;>
    cases ht : mapsTo idMap w.target.block <;> simp [hs, ht]

/-! ## The layer pass: truthiness plumbing -/

theorem mapsTo_eq_none_iff (idMap : Assoc String) (x : String) :
    mapsTo idMap x = none ↔ jsGet idMap x = none ∨ jsGet idMap x = some "" := by
  unfold mapsTo
  cases hg : jsGet idMap x with
  | none => simp
  | some w =>
      by_cases hw : w = "" <;> simp [hw]

theorem mapsTo_some_jsGet {idMap : Assoc String} {x u : String}
    (h : mapsTo idMap x = some u) : jsGet idMap x = some u := by
  unfold mapsTo at h
  cases hg : jsGet idMap x with
  | none => simp [hg] at h
  | some w =>
      by_cases hw : w = ""
      · simp [hg, hw] at h
      · simp only [hg, if_neg hw] at h
        exact h

theorem mapsTo_some_ne_empty {idMap : Assoc String} {x u : String}
    (h : mapsTo idMap x = some u) : u ≠ "" := by
  unfold mapsTo at h
  cases hg : jsGet idMap x with
  | none => simp [hg] at h
  | some w =>
      by_cases hw : w = ""
      · simp [hg, hw] at h
      · simp only [hg, if_neg hw] at h
        exact (Option.some.inj h) ▸ hw

theorem stepOne_none (idMap : Assoc String) (ms : Assoc Model) (oldId : String)
    (h : mapsTo idMap oldId = none) : stepOne idMap ms oldId = ms := by
  rcases (mapsTo_eq_none_iff idMap oldId).mp h with hg | hg <;>
    cases hb : jsGet ms oldId <;> simp [stepOne, hg, hb]

theorem stepOne_some (idMap : Assoc String) (ms : Assoc Model) (oldId : String)
    (b : Model) (u : String) (hb : jsGet ms oldId = some b) (hu : mapsTo idMap oldId = some u) :
    stepOne idMap ms oldId = jsDel (jsSet ms u { b with id := u }) oldId := by
  have hg : jsGet idMap oldId = some u := mapsTo_some_jsGet hu
  have hne : u ≠ "" := mapsTo_some_ne_empty hu
  simp [stepOne, hb, hg, hne]

/-! ## The layer pass: what one whole `forEach` does -/

/-- The key snapshot loop, run from an intermediate state: `pre` holds
the already-visited entries that were left in place, `acc` the renamed
entries appended so far, `post` the entries whose keys are still to be
visited.  When keys are unique and the rename targets are fresh, the
loop keeps unmapped entries in place and appends the renamed ones, in
order, at the end. -/
theorem updateLoop_spec (idMap : Assoc String) :
    ∀ (post pre acc : Assoc Model),
      (keys pre ++ keys post).Nodup →
      (∀ x ∈ keys post, ∀ u, mapsTo idMap x = some u →
        u ∉ keys pre ∧ u ∉ keys post ∧ u ∉ keys acc) →
      (∀ x y u, x ∈ keys post → y ∈ keys post →
        mapsTo idMap x = some u → mapsTo idMap y = some u → x = y) →
      List.foldl (stepOne idMap) (pre ++ post ++ acc) (keys post) =
        pre ++ post.filter (isUnmappedB idMap) ++ acc ++ post.filterMap (renameEntry idMap) := by
  intro post
  induction post with
  | nil =>
      intro pre acc _ _ _
      simp [keys]
  | cons e post ih =>
      obtain ⟨k, v⟩ := e
      intro pre acc hnodup hfresh hinj
      have hkeys : keys ((k, v) :: post) = k :: keys post := rfl
      rw [hkeys] at hnodup hfresh ⊢
      have hnodup' := List.nodup_middle.mp hnodup
      rw [List.nodup_cons] at hnodup'
      have hkpre : k ∉ keys pre := fun hmem => hnodup'.1 (List.mem_append.mpr (Or.inl hmem))
      have hkpost : k ∉ keys post := fun hmem => hnodup'.1 (List.mem_append.mpr (Or.inr hmem))
      have hms : pre ++ (k, v) :: post ++ acc = pre ++ (k, v) :: (post ++ acc) := by
        simp [List.append_assoc]
      have hget : jsGet (pre ++ (k, v) :: (post ++ acc)) k = some v := by
        rw [jsGet_append_of_not_mem_left _ hkpre]
        simp [jsGet]
      rw [List.foldl_cons, hms]
      cases hmt : mapsTo idMap k with
      | none =>
          rw [stepOne_none idMap _ k hmt]
          have hre : pre ++ (k, v) :: (post ++ acc) = (pre ++ [(k, v)]) ++ post ++ acc := by
            simp [List.append_assoc]
          have hn : (keys (pre ++ [(k, v)]) ++ keys post).Nodup := by
            rw [keys_append]
            show ((keys pre ++ [k]) ++ keys post).Nodup
            rw [List.append_assoc]
            simpa using hnodup
          have hf : ∀ x ∈ keys post, ∀ u, mapsTo idMap x = some u →
              u ∉ keys (pre ++ [(k, v)]) ∧ u ∉ keys post ∧ u ∉ keys acc := by
            intro x hx u hu
            obtain ⟨h1, h2, h3⟩ := hfresh x (List.mem_cons_of_mem _ hx) u hu
            refine ⟨?_, fun hm => h2 (List.mem_cons_of_mem _ hm), h3⟩
            rw [keys_append]
            intro hm
            rcases List.mem_append.mp hm with hm | hm
            · exact h1 hm
            · have huk : u = k := by simpa [keys] using hm
              exact h2 (by rw [huk]; exact List.mem_cons_self _ _)
          have hi : ∀ x y u, x ∈ keys post → y ∈ keys post →
              mapsTo idMap x = some u → mapsTo idMap y = some u → x = y :=
            fun x y u hx hy hxu hyu =>
              hinj x y u (List.mem_cons_of_mem _ hx) (List.mem_cons_of_mem _ hy) hxu hyu
          rw [hre, ih (pre ++ [(k, v)]) acc hn hf hi]
          have hfil : ((k, v) :: post).filter (isUnmappedB idMap)
              = (k, v) :: post.filter (isUnmappedB idMap) := by
            simp [List.filter_cons, isUnmappedB, hmt]
          have hfm : ((k, v) :: post).filterMap (renameEntry idMap)
              = post.filterMap (renameEntry idMap) := by
            simp [List.filterMap_cons, renameEntry, hmt]
          rw [hfil, hfm]
          simp [List.append_assoc]
      | some u =>
          obtain ⟨hu1, hu2, hu3⟩ := hfresh k (List.mem_cons_self _ _) u hmt
          have hunek : u ≠ k := fun h => hu2 (h ▸ List.mem_cons_self _ _)
          have hupost : u ∉ keys post := fun h => hu2 (List.mem_cons_of_mem _ h)
          have hunotin : u ∉ keys (pre ++ (k, v) :: (post ++ acc)) := by
            rw [keys_append, keys_cons, keys_append]
            intro hm
            rcases List.mem_append.mp hm with hm | hm
            · exact hu1 hm
            · rcases List.mem_cons.mp hm with hm | hm
              · exact hunek hm
              · rcases List.mem_append.mp hm with hm | hm
                · exact hupost hm
                · exact hu3 hm
          rw [stepOne_some idMap _ k v u hget hmt,
            jsSet_eq_append_of_not_mem _ hunotin]
          have hre2 : (pre ++ (k, v) :: (post ++ acc)) ++ [(u, { v with id := u })]
              = pre ++ (k, v) :: (post ++ (acc ++ [(u, { v with id := u })])) := by
            simp [List.append_assoc]
          rw [hre2, jsDel_append _ _ hkpre]
          have hinit : pre ++ (post ++ (acc ++ [(u, { v with id := u })]))
              = pre ++ post ++ (acc ++ [(u, { v with id := u })]) := by
            simp [List.append_assoc]
          have hn : (keys pre ++ keys post).Nodup := hnodup'.2
          have hf : ∀ x ∈ keys post, ∀ w, mapsTo idMap x = some w →
              w ∉ keys pre ∧ w ∉ keys post ∧
              w ∉ keys (acc ++ [(u, { v with id := u })]) := by
            intro x hx w hw
            obtain ⟨h1, h2, h3⟩ := hfresh x (List.mem_cons_of_mem _ hx) w hw
            refine ⟨h1, fun hm => h2 (List.mem_cons_of_mem _ hm), ?_⟩
            rw [keys_append]
            intro hm
            rcases List.mem_append.mp hm with hm | hm
            · exact h3 hm
            · have hwu : w = u := by simpa [keys] using hm
              have hxk : x = k := hinj x k w (List.mem_cons_of_mem _ hx)
                (List.mem_cons_self _ _) hw (by rw [hwu] at hw ⊢; exact hmt)
              exact hkpost (hxk ▸ hx)
          have hi : ∀ x y w, x ∈ keys post → y ∈ keys post →
              mapsTo idMap x = some w → mapsTo idMap y = some w → x = y :=
            fun x y w hx hy hxw hyw =>
              hinj x y w (List.mem_cons_of_mem _ hx) (List.mem_cons_of_mem _ hy) hxw hyw
          have hmain := ih pre (acc ++ [(u, { v with id := u })]) hn hf hi
          have hfil : ((k, v) :: post).filter (isUnmappedB idMap)
              = post.filter (isUnmappedB idMap) := by
            simp [List.filter_cons, isUnmappedB, hmt]
          have hfm : ((k, v) :: post).filterMap (renameEntry idMap)
              = (u, { v with id := u }) :: post.filterMap (renameEntry idMap) := by
            simp [List.filterMap_cons, renameEntry, hmt]
          rw [hinit, hmain, hfil, hfm]
          simp [List.append_assoc]

/-- The whole `forEach` on one `models` object, under unique keys and
fresh, collision-free rename targets: unmapped entries stay (in
order), renamed entries are appended (in order). -/
theorem updateModels_spec (idMap : Assoc String) (ms : Assoc Model)
    (hnodup : (keys ms).Nodup)
    (hfresh : ∀ x ∈ keys ms, ∀ u, mapsTo idMap x = some u → u ∉ keys ms)
    (hinj : ∀ x y u, x ∈ keys ms → y ∈ keys ms →
      mapsTo idMap x = some u → mapsTo idMap y = some u → x = y) :
    updateModels idMap ms =
      ms.filter (isUnmappedB idMap) ++ ms.filterMap (renameEntry idMap) := by
  have h := updateLoop_spec idMap ms [] []
    (by simpa [keys] using hnodup)
    (by
      intro x hx u hu
      exact ⟨by simp [keys], hfresh x hx u hu, by simp [keys]⟩)
    hinj
  simpa [updateModels] using h

theorem filter_filterMap_length (idMap : Assoc String) :
    ∀ (ms : Assoc Model),
      (ms.filter (isUnmappedB idMap)).length + (ms.filterMap (renameEntry idMap)).length
        = ms.length := by
  intro ms
  induction ms with
  | nil => rfl
  | cons e rest ih =>
      cases hmt : mapsTo idMap e.1 with
      | none =>
          have h1 : isUnmappedB idMap e = true := by simp [isUnmappedB, hmt]
          have h2 : renameEntry idMap e = none := by simp [renameEntry, hmt]
          simp only [List.filter_cons, h1, if_pos, List.filterMap_cons, h2,
            List.length_cons]
          omega
      | some u =>
          have h1 : isUnmappedB idMap e = false := by simp [isUnmappedB, hmt]
          have h2 : renameEntry idMap e = some (u, { e.2 with id := u }) := by
            simp [renameEntry, hmt]
          simp only [List.filter_cons, h1, List.filterMap_cons, h2, List.length_cons]
          simp only [Bool.false_eq_true, if_false, List.length_cons]
          omega

theorem updateModels_length (idMap : Assoc String) (ms : Assoc Model)
    (hnodup : (keys ms).Nodup)
    (hfresh : ∀ x ∈ keys ms, ∀ u, mapsTo idMap x = some u → u ∉ keys ms)
    (hinj : ∀ x y u, x ∈ keys ms → y ∈ keys ms →
      mapsTo idMap x = some u → mapsTo idMap y = some u → x = y) :
    (updateModels idMap ms).length = ms.length := by
  rw [updateModels_spec idMap ms hnodup hfresh hinj, List.length_append]
  exact filter_filterMap_length idMap ms

/-! ## The editor after a run -/

theorem loadPackage_model (rand : Nat → Nat) (doc : PackageDoc) :
    (loadPackage rand doc).model =
      updateModelIdsInLayer (finalIdMap rand doc)
        (updateModelIdsInLayer (finalIdMap rand doc) doc.editor 0) 1 := by
  simp only [loadPackage, loadPackageS, stepWires, stepLayers, stepGenIds, initState,
    cloneEditor_eq, cloneDesign_eq, finalIdMap, List.foldl_cons, List.foldl_nil]

theorem modifyAt_getElem_self {α : Type} (f : α → α) :
    ∀ (l : List α) (i : Nat), (modifyAt f i l)[i]? = (l[i]?).map f := by
  intro l
  induction l with
  | nil => intro i; cases i <;> simp [modifyAt]
  | cons a t ih =>
      intro i
      cases i with
      | zero => simp [modifyAt, List.getElem?_cons_zero]
      | succ n => simpa [modifyAt, List.getElem?_cons_succ] using ih n

theorem modifyAt_getElem_ne {α : Type} (f : α → α) :
    ∀ (l : List α) (i j : Nat), i ≠ j → (modifyAt f i l)[j]? = l[j]? := by
  intro l
  induction l with
  | nil => intro i j _; cases i <;> simp [modifyAt]
  | cons a t ih =>
      intro i j hij
      cases i with
      | zero =>
          cases j with
          | zero => exact absurd rfl hij
          | succ m => simp [modifyAt, List.getElem?_cons_succ]
      | succ n =>
          cases j with
          | zero => simp [modifyAt, List.getElem?_cons_zero]
          | succ m =>
              simpa [modifyAt, List.getElem?_cons_succ] using
                ih n m (fun h => hij (by rw [h]))

theorem mem_of_getElem? {α : Type} : ∀ {l : List α} {i : Nat} {a : α},
    l[i]? = some a → a ∈ l := by
  intro l
  induction l with
  | nil => intro i a h; cases i <;> simp at h
  | cons x t ih =>
      intro i a h
      cases i with
      | zero =>
          simp at h
          exact h ▸ List.mem_cons_self _ _
      | succ n =>
          rw [List.getElem?_cons_succ] at h
          exact List.mem_cons_of_mem _ (ih h)

theorem sum_models_modifyAt (f : Layer → Layer) :
    ∀ (l : List Layer) (i : Nat),
      (∀ L, l[i]? = some L → (f L).models.length = L.models.length) →
      ((modifyAt f i l).map fun L => L.models.length).sum =
        (l.map fun L => L.models.length).sum := by
  intro l
  induction l with
  | nil => intro i _; cases i <;> rfl
  | cons a t ih =>
      intro i h
      cases i with
      | zero =>
          simp only [modifyAt, List.map_cons, List.sum_cons]
          rw [h a (by simp [List.getElem?_cons_zero])]
      | succ n =>
          simp only [modifyAt, List.map_cons, List.sum_cons]
          rw [ih n fun L hL => h L (by simpa [List.getElem?_cons_succ] using hL)]

/-- Under the freshness assumptions of a collision-free run, each
layer's models object satisfies the hypotheses of `updateModels_spec`. -/
theorem layer_hyps (rand : Nat → Nat) (doc : PackageDoc)
    (hgen : (genIds rand doc.design.graph.blocks.length 0).Nodup)
    (hfresh : ∀ L ∈ doc.editor.layers,
      ∀ u ∈ genIds rand doc.design.graph.blocks.length 0, u ∉ keys L.models)
    (L : Layer) (hL : L ∈ doc.editor.layers) :
    (∀ x ∈ keys L.models, ∀ u, mapsTo (finalIdMap rand doc) x = some u →
      u ∉ keys L.models) ∧
    (∀ x y u, x ∈ keys L.models → y ∈ keys L.models →
      mapsTo (finalIdMap rand doc) x = some u →
      mapsTo (finalIdMap rand doc) y = some u → x = y) := by
  constructor
  · intro x _ u hu
    exact hfresh L hL u (finalIdMap_values rand doc (mapsTo_some_jsGet hu))
  · intro x y u _ _ hx hy
    exact finalIdMap_inj rand doc hgen x y u (mapsTo_some_jsGet hx) (mapsTo_some_jsGet hy)

theorem jsGet_filter_unmapped (idMap : Assoc String) {x : String}
    (hx : mapsTo idMap x = none) :
    ∀ (ms : Assoc Model), jsGet (ms.filter (isUnmappedB idMap)) x = jsGet ms x := by
  intro ms
  induction ms with
  | nil => rfl
  | cons e rest ih =>
      obtain ⟨ke, ve⟩ := e
      by_cases hkex : ke = x
      · subst hkex
        have hun : isUnmappedB idMap (ke, ve) = true := by simp [isUnmappedB, hx]
        simp [List.filter_cons, hun, jsGet]
      · cases hun : isUnmappedB idMap (ke, ve) with
        | true => simp [List.filter_cons, hun, jsGet, hkex, ih]
        | false => simp [List.filter_cons, hun, jsGet, hkex, ih]

theorem mem_keys_filterMap_rename (idMap : Assoc String) {u : String} :
    ∀ {ms : Assoc Model}, u ∈ keys (ms.filterMap (renameEntry idMap)) →
      ∃ x ∈ keys ms, mapsTo idMap x = some u := by
  intro ms
  induction ms with
  | nil => intro h; simp [keys] at h
  | cons e rest ih =>
      intro h
      cases hmt : mapsTo idMap e.1 with
      | none =>
          have hre : renameEntry idMap e = none := by simp [renameEntry, hmt]
          rw [List.filterMap_cons, hre] at h
          obtain ⟨x, hx, hm⟩ := ih h
          exact ⟨x, List.mem_cons_of_mem _ hx, hm⟩
      | some w =>
          have hre : renameEntry idMap e = some (w, { e.2 with id := w }) := by
            simp [renameEntry, hmt]
          rw [List.filterMap_cons, hre] at h
          rw [keys_cons, List.mem_cons] at h
          rcases h with h | h
          · exact ⟨e.1, List.mem_cons_self _ _, by rw [hmt]; exact congrArg some h.symm⟩
          · obtain ⟨x, hx, hm⟩ := ih h
            exact ⟨x, List.mem_cons_of_mem _ hx, hm⟩

theorem loadPackage_layers_01 (rand : Nat → Nat) (doc : PackageDoc)
    (j : Nat) (hj : j = 0 ∨ j = 1) :
    (loadPackage rand doc).model.layers[j]? =
      (doc.editor.layers[j]?).map (updateLayer (finalIdMap rand doc)) := by
  rw [loadPackage_model]
  simp only [updateModelIdsInLayer]
  rcases hj with hj | hj <;> subst hj
  · rw [modifyAt_getElem_ne _ _ 1 0 (by decide), modifyAt_getElem_self]
  · rw [modifyAt_getElem_self, modifyAt_getElem_ne _ _ 0 1 (by decide)]

theorem loadPackage_layers_ge2 (rand : Nat → Nat) (doc : PackageDoc)
    (j : Nat) (hj : 2 ≤ j) :
    (loadPackage rand doc).model.layers[j]? = doc.editor.layers[j]? := by
  rw [loadPackage_model]
  simp only [updateModelIdsInLayer]
  rw [modifyAt_getElem_ne _ _ 1 j (by omega), modifyAt_getElem_ne _ _ 0 j (by omega)]

/-! ## Stored models under renamed keys carry the key as their id -/

theorem stepOne_skip (idMap : Assoc String) (ms : Assoc Model) (oldId : String)
    (h : jsGet ms oldId = none) : stepOne idMap ms oldId = ms := by
  cases hm : jsGet idMap oldId <;> simp [stepOne, h, hm]

theorem keys_jsSet {α : Type} (k : String) (v : α) :
    ∀ (m : Assoc α), keys (jsSet m k v) = if k ∈ keys m then keys m else keys m ++ [k] := by
  intro m
  induction m with
  | nil => simp [jsSet, keys]
  | cons e rest ih =>
      obtain ⟨ke, ve⟩ := e
      by_cases hek : ke = k
      · subst hek
        simp [jsSet, keys_cons, List.mem_cons]
      · simp only [jsSet, if_neg hek, keys_cons, ih]
        by_cases hk : k ∈ keys rest
        · rw [if_pos hk, if_pos (List.mem_cons_of_mem _ hk)]
        · have hnk : k ∉ (ke :: keys rest) := by
            rw [List.mem_cons]
            push_neg
            exact ⟨fun h => hek h.symm, hk⟩
          rw [if_neg hk, if_neg hnk, List.cons_append]

theorem jsSet_keys_nodup {α : Type} {m : Assoc α} (k : String) (v : α)
    (h : (keys m).Nodup) : (keys (jsSet m k v)).Nodup := by
  rw [keys_jsSet]
  by_cases hk : k ∈ keys m
  · rw [if_pos hk]; exact h
  · rw [if_neg hk]
    refine List.nodup_middle.mpr ?_
    rw [List.nodup_cons]
    exact ⟨by simpa using hk, by simpa using h⟩

theorem jsDel_keys_nodup {α : Type} {m : Assoc α} (k : String)
    (h : (keys m).Nodup) : (keys (jsDel m k)).Nodup :=
  h.sublist (keys_sublist_of_sublist (jsDel_sublist k m))

theorem stepOne_preserves_nodup (idMap : Assoc String) (ms : Assoc Model) (oldId : String)
    (h : (keys ms).Nodup) : (keys (stepOne idMap ms oldId)).Nodup := by
  cases hb : jsGet ms oldId with
  | none => rw [stepOne_skip _ _ _ hb]; exact h
  | some b =>
      cases hmt : mapsTo idMap oldId with
      | none => rw [stepOne_none _ _ _ hmt]; exact h
      | some u =>
          rw [stepOne_some _ _ _ b u hb hmt]
          exact jsDel_keys_nodup _ (jsSet_keys_nodup _ _ h)

theorem stepOne_keeps_some (idMap : Assoc String) (ms : Assoc Model) (oldId x : String)
    (hne : x ≠ oldId) (h : (jsGet ms x).isSome) :
    (jsGet (stepOne idMap ms oldId) x).isSome := by
  cases hb : jsGet ms oldId with
  | none => rw [stepOne_skip _ _ _ hb]; exact h
  | some b =>
      cases hmt : mapsTo idMap oldId with
      | none => rw [stepOne_none _ _ _ hmt]; exact h
      | some u =>
          rw [stepOne_some _ _ _ b u hb hmt, jsGet_jsDel_ne hne, jsGet_jsSet]
          by_cases hxu : x = u
          · rw [if_pos hxu]; rfl
          · rw [if_neg hxu]; exact h

theorem stepOne_preserves_id_inv (idMap : Assoc String) (ms : Assoc Model)
    (oldId u0 : String) (hnodup : (keys ms).Nodup)
    (hS : ∀ v, jsGet ms u0 = some v → v.id = u0) :
    ∀ v, jsGet (stepOne idMap ms oldId) u0 = some v → v.id = u0 := by
  intro v hv
  cases hb : jsGet ms oldId with
  | none => rw [stepOne_skip _ _ _ hb] at hv; exact hS v hv
  | some b =>
      cases hmt : mapsTo idMap oldId with
      | none => rw [stepOne_none _ _ _ hmt] at hv; exact hS v hv
      | some u =>
          rw [stepOne_some _ _ _ b u hb hmt] at hv
          by_cases hu0old : u0 = oldId
          · rw [hu0old, jsGet_jsDel_self (jsSet_keys_nodup _ _ hnodup)] at hv
            cases hv
          · rw [jsGet_jsDel_ne hu0old, jsGet_jsSet] at hv
            by_cases hu0u : u0 = u
            · rw [if_pos hu0u] at hv
              rw [hu0u, ← Option.some.inj hv]
            · rw [if_neg hu0u] at hv
              exact hS v hv

theorem foldl_preserves_nodup (idMap : Assoc String) :
    ∀ (ks : List String) (ms : Assoc Model), (keys ms).Nodup →
      (keys (List.foldl (stepOne idMap) ms ks)).Nodup := by
  intro ks
  induction ks with
  | nil => intro ms h; exact h
  | cons kk ks ih =>
      intro ms h
      rw [List.foldl_cons]
      exact ih _ (stepOne_preserves_nodup _ _ _ h)

theorem foldl_preserves_id_inv (idMap : Assoc String) (u0 : String) :
    ∀ (ks : List String) (ms : Assoc Model),
      (keys ms).Nodup →
      (∀ v, jsGet ms u0 = some v → v.id = u0) →
      ∀ v, jsGet (List.foldl (stepOne idMap) ms ks) u0 = some v → v.id = u0 := by
  intro ks
  induction ks with
  | nil => intro ms _ hS; exact hS
  | cons kk ks ih =>
      intro ms hnodup hS
      rw [List.foldl_cons]
      exact ih _ (stepOne_preserves_nodup _ _ _ hnodup)
        (stepOne_preserves_id_inv _ _ _ _ hnodup hS)

theorem foldl_keeps_some (idMap : Assoc String) (x : String) :
    ∀ (ks : List String), x ∉ ks → ∀ (ms : Assoc Model),
      (jsGet ms x).isSome → (jsGet (List.foldl (stepOne idMap) ms ks) x).isSome := by
  intro ks
  induction ks with
  | nil => intro _ ms h; exact h
  | cons kk ks ih =>
      intro hx ms h
      rw [List.mem_cons] at hx
      push_neg at hx
      rw [List.foldl_cons]
      exact ih hx.2 _ (stepOne_keeps_some _ _ _ _ hx.1 h)

/-- Once a key was renamed, the model the output stores under the new
key has its own `id` field equal to that key — whatever the rest of the
loop does afterwards. -/
theorem updateModels_renamed_id (idMap : Assoc String) (ms : Assoc Model)
    (hnodup : (keys ms).Nodup) {oldKey u : String}
    (hold : oldKey ∈ keys ms) (hmap : mapsTo idMap oldKey = some u) :
    ∀ v, jsGet (updateModels idMap ms) u = some v → v.id = u := by
  unfold updateModels
  obtain ⟨ks1, ks2, hsplit⟩ := List.append_of_mem hold
  rw [hsplit, List.foldl_append, List.foldl_cons]
  have hnods : (ks1 ++ oldKey :: ks2).Nodup := hsplit ▸ hnodup
  have h1 := List.nodup_middle.mp hnods
  rw [List.nodup_cons] at h1
  have hk1 : oldKey ∉ ks1 := fun hm => h1.1 (List.mem_append.mpr (Or.inl hm))
  have hpres : (jsGet (List.foldl (stepOne idMap) ms ks1) oldKey).isSome :=
    foldl_keeps_some idMap oldKey ks1 hk1 ms (jsGet_isSome_of_mem hold)
  obtain ⟨b, hb⟩ := Option.isSome_iff_exists.mp hpres
  have hnod1 : (keys (List.foldl (stepOne idMap) ms ks1)).Nodup :=
    foldl_preserves_nodup idMap ks1 ms hnodup
  rw [stepOne_some _ _ _ b u hb hmap]
  have hnod2 :
      (keys (jsDel (jsSet (List.foldl (stepOne idMap) ms ks1) u { b with id := u })
        oldKey)).Nodup :=
    jsDel_keys_nodup _ (jsSet_keys_nodup _ _ hnod1)
  refine foldl_preserves_id_inv idMap u ks2 _ hnod2 ?_
  intro v hv
  by_cases huo : u = oldKey
  · rw [huo, jsGet_jsDel_self (jsSet_keys_nodup _ _ hnod1)] at hv
    cases hv
  · rw [jsGet_jsDel_ne huo, jsGet_jsSet, if_pos rfl] at hv
    rw [← Option.some.inj hv]

/-! ## Decimal rendering and the constant-block id -/

theorem string_data_append (s t : String) : (s ++ t).data = s.data ++ t.data := rfl

theorem natToDecimalAux_small (n : Nat) (fuel : Nat) (hf : 0 < fuel) (h : n < 10) :
    natToDecimalAux fuel n = [hexDigit n] := by
  cases fuel with
  | zero => omega
  | succ f => simp [natToDecimalAux, h]

theorem natToDecimalAux_step (n : Nat) (fuel : Nat) (hf : 0 < fuel) (h : 10 ≤ n) :
    natToDecimalAux fuel n = natToDecimalAux (fuel - 1) (n / 10) ++ [hexDigit (n % 10)] := by
  cases fuel with
  | zero => omega
  | succ f =>
      have hn : ¬n < 10 := by omega
      simp [natToDecimalAux, hn]

theorem pad4_digits (n : Nat) (h : n < 10000) :
    (padStart4 (natToDecimalStr n)).data =
      [hexDigit (n / 1000), hexDigit (n / 100 % 10),
       hexDigit (n / 10 % 10), hexDigit (n % 10)] := by
  have h0 : hexDigit 0 = '0' := rfl
  unfold padStart4 natToDecimalStr
  by_cases h1 : n < 10
  · rw [natToDecimalAux_small n (n + 1) (by omega) h1]
    have e1 : n / 1000 = 0 := by omega
    have e2 : n / 100 % 10 = 0 := by omega
    have e3 : n / 10 % 10 = 0 := by omega
    have e4 : n % 10 = n := by omega
    rw [e1, e2, e3, e4, h0]
    simp [String.length, List.replicate]
  · by_cases h2 : n < 100
    · rw [natToDecimalAux_step n (n + 1) (by omega) (by omega), Nat.add_sub_cancel,
        natToDecimalAux_small (n / 10) n (by omega) (by omega)]
      have e1 : n / 1000 = 0 := by omega
      have e2 : n / 100 % 10 = 0 := by omega
      have e3 : n / 10 % 10 = n / 10 := by omega
      rw [e1, e2, e3, h0]
      simp [String.length, List.replicate]
    · by_cases h3 : n < 1000
      · rw [natToDecimalAux_step n (n + 1) (by omega) (by omega), Nat.add_sub_cancel,
          natToDecimalAux_step (n / 10) n (by omega) (by omega)]
        have ed : n / 10 / 10 = n / 100 := by omega
        have ed2 : n / 10 % 10 = n / 10 % 10 := rfl
        rw [ed, natToDecimalAux_small (n / 100) (n - 1) (by omega) (by omega)]
        have e1 : n / 1000 = 0 := by omega
        have e2 : n / 100 % 10 = n / 100 := by omega
        rw [e1, e2, h0]
        simp [String.length, List.replicate]
      · rw [natToDecimalAux_step n (n + 1) (by omega) (by omega), Nat.add_sub_cancel,
          natToDecimalAux_step (n / 10) n (by omega) (by omega)]
        have ed : n / 10 / 10 = n / 100 := by omega
        rw [ed, natToDecimalAux_step (n / 100) (n - 1) (by omega) (by omega)]
        have ed2 : n / 100 / 10 = n / 1000 := by omega
        rw [ed2, natToDecimalAux_small (n / 1000) (n - 1 - 1) (by omega) (by omega)]
        simp [String.length, List.replicate]

theorem constantIdFor_data (n : Nat) (u : String) (h : n < 10000) :
    (constantIdFor n u).data =
      hexDigit (n / 1000) :: hexDigit (n / 100 % 10) :: hexDigit (n / 10 % 10)
        :: hexDigit (n % 10) :: '-' :: u.data := by
  unfold constantIdFor
  rw [string_data_append, string_data_append, pad4_digits n h]
  rfl

theorem hexDigit_strict_mono : ∀ b, b < 10 → ∀ a, a < b → hexDigit a < hexDigit b := by
  decide

theorem digits_lt (i j : Nat) (t1 t2 : List Char) (hij : i < j) (hj : j < 10000) :
    (hexDigit (i / 1000) :: hexDigit (i / 100 % 10) :: hexDigit (i / 10 % 10)
        :: hexDigit (i % 10) :: t1)
      < (hexDigit (j / 1000) :: hexDigit (j / 100 % 10) :: hexDigit (j / 10 % 10)
        :: hexDigit (j % 10) :: t2) := by
  rcases Nat.lt_trichotomy (i / 1000) (j / 1000) with h3 | h3 | h3
  · exact List.Lex.rel (hexDigit_strict_mono (j / 1000) (by omega) (i / 1000) h3)
  · rw [h3]
    refine List.Lex.cons ?_
    rcases Nat.lt_trichotomy (i / 100 % 10) (j / 100 % 10) with h2 | h2 | h2
    · exact List.Lex.rel (hexDigit_strict_mono (j / 100 % 10) (by omega) (i / 100 % 10) h2)
    · rw [h2]
      refine List.Lex.cons ?_
      rcases Nat.lt_trichotomy (i / 10 % 10) (j / 10 % 10) with hd1 | hd1 | hd1
      · exact List.Lex.rel (hexDigit_strict_mono (j / 10 % 10) (by omega) (i / 10 % 10) hd1)
      · rw [hd1]
        refine List.Lex.cons ?_
        rcases Nat.lt_trichotomy (i % 10) (j % 10) with hd0 | hd0 | hd0
        · exact List.Lex.rel (hexDigit_strict_mono (j % 10) (by omega) (i % 10) hd0)
        · exfalso; omega
        · exfalso; omega
      · exfalso; omega
    · exfalso; omega
  · exfalso; omega

theorem constantIdFor_lt (i j : Nat) (u1 u2 : String) (hij : i < j) (hj : j < 10000) :
    constantIdFor i u1 < constantIdFor j u2 := by
  rw [String.lt_iff_toList_lt]
  show (constantIdFor i u1).data < (constantIdFor j u2).data
  rw [constantIdFor_data i u1 (by omega), constantIdFor_data j u2 hj]
  exact digits_lt i j _ _ hij hj

/-! ## An untouched key keeps its entry through the whole loop -/

/-- One loop iteration neither writes to nor deletes a key that is
unmapped and different from the iteration's rename target. -/
theorem stepOne_preserves_get (idMap : Assoc String) (ms : Assoc Model) (oldId x : String)
    (hx : mapsTo idMap x = none)
    (havoid : ∀ u, mapsTo idMap oldId = some u → u ≠ x) :
    jsGet (stepOne idMap ms oldId) x = jsGet ms x := by
  cases hb : jsGet ms oldId with
  | none => rw [stepOne_skip _ _ _ hb]
  | some b =>
      cases hmt : mapsTo idMap oldId with
      | none => rw [stepOne_none _ _ _ hmt]
      | some u =>
          rw [stepOne_some _ _ _ b u hb hmt]
          have hxo : x ≠ oldId := by
            intro h
            rw [h, hmt] at hx
            cases hx
          have hxu : x ≠ u := fun h => (havoid u hmt) h.symm
          rw [jsGet_jsDel_ne hxo, jsGet_jsSet, if_neg hxu]

theorem foldl_preserves_get (idMap : Assoc String) (x : String)
    (hx : mapsTo idMap x = none) :
    ∀ (ks : List String),
      (∀ oldId ∈ ks, ∀ u, mapsTo idMap oldId = some u → u ≠ x) →
      ∀ (ms : Assoc Model), jsGet (List.foldl (stepOne idMap) ms ks) x = jsGet ms x := by
  intro ks
  induction ks with
  | nil => intro _ ms; rfl
  | cons kk ks ih =>
      intro h ms
      rw [List.foldl_cons,
        ih (fun o ho u hu => h o (List.mem_cons_of_mem _ ho) u hu) _,
        stepOne_preserves_get idMap ms kk x hx (h kk (List.mem_cons_self _ _))]

/-- The whole `forEach` leaves the entry of an unmapped key alone, as
long as no rename target of a snapshot key equals that key. -/
theorem updateModels_preserves_unmapped (idMap : Assoc String) (ms : Assoc Model)
    (x : String) (hx : mapsTo idMap x = none)
    (havoid : ∀ oldId ∈ keys ms, ∀ u, mapsTo idMap oldId = some u → u ≠ x) :
    jsGet (updateModels idMap ms) x = jsGet ms x :=
  foldl_preserves_get idMap x hx (keys ms) havoid ms

/-! ## Claim theorems: the easy structural ones -/

/-- Claim C5: `loadPackage` does not mutate its argument.  All mutation
in the run is threaded through the `LPState`, whose `orig` component is
the caller's document; the final state returns it unchanged, and the
pieces of the result that come from the input (`info`, `dependencies`)
are read from `orig` while everything else is computed from the deep
copies made by `initState`. -/
theorem C5_no_mutation (rand : Nat → Nat) (doc : PackageDoc) :
    (loadPackageS rand doc).orig = doc := rfl

/-- Claim C8: with the id mapping fixed, the layer-0 and layer-1 model
renames commute, because each rewrites only its own layer. -/
theorem C8_layer_updates_commute (idMap : Assoc String) (e : Editor) :
    updateModelIdsInLayer idMap (updateModelIdsInLayer idMap e 0) 1 =
    updateModelIdsInLayer idMap (updateModelIdsInLayer idMap e 1) 0 := by
  obtain ⟨layers⟩ := e
  match layers with
  | [] => rfl
  | [a] => rfl
  | a :: b :: t => rfl

/-- Claim C7: every id that `loadPackage` writes into a block is a
UUID v4 string: 36 characters grouped 8-4-4-4-12 by dashes, 32 hex
digits, version nibble `'4'` and variant nibble in `{8, 9, a, b}`. -/
theorem C7_block_ids_are_uuidv4 (rand : Nat → Nat) (doc : PackageDoc) (b : Block)
    (hb : b ∈ (loadPackage rand doc).design.graph.blocks) : isUuidV4B b.id = true := by
  rw [loadPackage_blocks] at hb
  have hid : b.id ∈ (genBlocks rand doc.design.graph.blocks 0 []).blocks.map Block.id :=
    List.mem_map_of_mem Block.id hb
  rw [genBlocks_ids] at hid
  obtain ⟨j, hj⟩ := genIds_mem rand _ _ _ hid
  rw [hj]
  exact isUuidV4B_generateNewId rand j

/-- Witness for C7 at a concrete document and random stream. -/
theorem C7_witness :
    (⟨uuidZero, 0⟩ : Block) ∈ (loadPackage randZero docTwo).design.graph.blocks ∧
    isUuidV4B (Block.id ⟨uuidZero, 0⟩) = true :=
  ⟨by decide, C7_block_ids_are_uuidv4 randZero docTwo ⟨uuidZero, 0⟩ (by decide)⟩

/-- Claim C3: a wire endpoint whose original block id occurred among
the input blocks is rewritten to the id of a block that exists in the
output block collection. -/
theorem C3_referential_integrity (rand : Nat → Nat) (doc : PackageDoc) (i : Nat)
    (w w' : Wire)
    (hw : doc.design.graph.wires[i]? = some w)
    (hw' : (loadPackage rand doc).design.graph.wires[i]? = some w') :
    (w.source.block ∈ blockIds doc.design →
      w'.source.block ∈ blockIds (loadPackage rand doc).design) ∧
    (w.target.block ∈ blockIds doc.design →
      w'.target.block ∈ blockIds (loadPackage rand doc).design) := by
  rw [loadPackage_wires, List.getElem?_map, hw, Option.map_some'] at hw'
  have hww : w' = updateWire (finalIdMap rand doc) w := (Option.some.inj hw').symm
  subst hww
  constructor
  · intro hs
    obtain ⟨u, hu, humem⟩ := finalIdMap_covers rand doc hs
    have hm : mapsTo (finalIdMap rand doc) w.source.block = some u := by
      rw [mapsTo_finalIdMap, hu]
    rw [updateWire_source, hm]
    exact humem
  · intro ht
    obtain ⟨u, hu, humem⟩ := finalIdMap_covers rand doc ht
    have hm : mapsTo (finalIdMap rand doc) w.target.block = some u := by
      rw [mapsTo_finalIdMap, hu]
    rw [updateWire_target, hm]
    exact humem

/-- Witness for C3 at a concrete self-loop document. -/
theorem C3_witness :
    (⟨⟨uuidSeqA, "p"⟩, ⟨uuidSeqA, "p"⟩⟩ : Wire).source.block ∈
      blockIds (loadPackage randSeq docLoop).design :=
  (C3_referential_integrity randSeq docLoop 0 ⟨⟨"a", "p"⟩, ⟨"a", "p"⟩⟩
    ⟨⟨uuidSeqA, "p"⟩, ⟨uuidSeqA, "p"⟩⟩ (by decide) (by decide)).1 (by decide)

/-- Counterexample to claim C1 as stated: when a generated id collides
with the old id of its own block (the input id already has UUID shape
and the random draws reproduce it), the rename loop overwrites and then
deletes the layer entry, so the output has fewer model entries. -/
theorem C1_counterexample :
    totalModels (loadPackage randZero docCollide).model ≠ totalModels docCollide.editor := by
  decide

/-- Claim C1 (amended): provided the freshly generated block ids are
pairwise distinct and none of them equals an existing editor-layer
model key — collisions the random source makes overwhelmingly unlikely
but does not rule out — the output has exactly the input's block count,
wire count and total layer-model count. -/
theorem C1_structure_preserved (rand : Nat → Nat) (doc : PackageDoc)
    (hkeys : ∀ L ∈ doc.editor.layers, (keys L.models).Nodup)
    (hgen : (genIds rand doc.design.graph.blocks.length 0).Nodup)
    (hfresh : ∀ L ∈ doc.editor.layers,
      ∀ u ∈ genIds rand doc.design.graph.blocks.length 0, u ∉ keys L.models) :
    (loadPackage rand doc).design.graph.blocks.length = doc.design.graph.blocks.length ∧
    (loadPackage rand doc).design.graph.wires.length = doc.design.graph.wires.length ∧
    totalModels (loadPackage rand doc).model = totalModels doc.editor := by
  refine ⟨?_, ?_, ?_⟩
  · rw [loadPackage_blocks]
    exact genBlocks_blocks_length rand _ 0 []
  · rw [loadPackage_wires, List.length_map]
  · rw [loadPackage_model]
    have hupd : ∀ L ∈ doc.editor.layers,
        (updateLayer (finalIdMap rand doc) L).models.length = L.models.length := by
      intro L hL
      obtain ⟨hf, hi⟩ := layer_hyps rand doc hgen hfresh L hL
      exact updateModels_length _ _ (hkeys L hL) hf hi
    have h1cond : ∀ L,
        (modifyAt (updateLayer (finalIdMap rand doc)) 0 doc.editor.layers)[1]? = some L →
        (updateLayer (finalIdMap rand doc) L).models.length = L.models.length := by
      intro L hL
      rw [modifyAt_getElem_ne _ doc.editor.layers 0 1 (by decide)] at hL
      exact hupd L (mem_of_getElem? hL)
    have h0cond : ∀ L, doc.editor.layers[0]? = some L →
        (updateLayer (finalIdMap rand doc) L).models.length = L.models.length :=
      fun L hL => hupd L (mem_of_getElem? hL)
    simp only [totalModels, updateModelIdsInLayer]
    rw [sum_models_modifyAt _ _ 1 h1cond, sum_models_modifyAt _ _ 0 h0cond]

/-- Witness for the amended C1 at a concrete document and stream. -/
theorem C1_witness :
    (loadPackage randSeq docPass).design.graph.blocks.length =
      docPass.design.graph.blocks.length ∧
    (loadPackage randSeq docPass).design.graph.wires.length =
      docPass.design.graph.wires.length ∧
    totalModels (loadPackage randSeq docPass).model = totalModels docPass.editor :=
  C1_structure_preserved randSeq docPass (by decide) (by decide) (by decide)

/-- Counterexample to claim C4 as stated: in `docOverwrite` the key
`uuidZero` is an editor-layer key that is not a block id, yet under
`randZero` the block `"a"` is renamed to exactly `uuidZero`, so the
rename loop overwrites the entry stored under it — the unmapped key's
entry is not passed through unchanged. -/
theorem C4_counterexample :
    uuidZero ∈ keys (⟨[("a", ⟨"a", 1⟩), (uuidZero, ⟨uuidZero, 2⟩)]⟩ : Layer).models ∧
    uuidZero ∉ blockIds docOverwrite.design ∧
    docOverwrite.editor.layers[0]? = some ⟨[("a", ⟨"a", 1⟩), (uuidZero, ⟨uuidZero, 2⟩)]⟩ ∧
    (loadPackage randZero docOverwrite).model.layers[0]? =
      some ⟨[(uuidZero, ⟨uuidZero, 1⟩)]⟩ ∧
    jsGet (⟨[(uuidZero, ⟨uuidZero, 1⟩)]⟩ : Layer).models uuidZero ≠
      jsGet (⟨[("a", ⟨"a", 1⟩), (uuidZero, ⟨uuidZero, 2⟩)]⟩ : Layer).models uuidZero := by
  decide

/-- Claim C4 (amended): wire endpoints whose block id is not among the
input blocks are passed through unchanged — unconditionally, for every
random stream; an editor-layer model key that is not among the input
block ids keeps its entry unchanged provided no freshly generated id
equals an existing layer model key (the amendment the counterexample
forces). -/
theorem C4_unmapped_ids_pass_through (rand : Nat → Nat) (doc : PackageDoc) :
    (∀ (i : Nat) (w w' : Wire), doc.design.graph.wires[i]? = some w →
      (loadPackage rand doc).design.graph.wires[i]? = some w' →
      (w.source.block ∉ blockIds doc.design → w'.source.block = w.source.block) ∧
      (w.target.block ∉ blockIds doc.design → w'.target.block = w.target.block)) ∧
    ((∀ L ∈ doc.editor.layers,
        ∀ u ∈ genIds rand doc.design.graph.blocks.length 0, u ∉ keys L.models) →
      ∀ (j : Nat) (L L' : Layer), doc.editor.layers[j]? = some L →
        (loadPackage rand doc).model.layers[j]? = some L' →
        ∀ x ∈ keys L.models, x ∉ blockIds doc.design →
          jsGet L'.models x = jsGet L.models x) := by
  constructor
  · intro i w w' hw hw'
    rw [loadPackage_wires, List.getElem?_map, hw, Option.map_some'] at hw'
    have hww : w' = updateWire (finalIdMap rand doc) w := (Option.some.inj hw').symm
    subst hww
    constructor
    · intro hs
      have hnone : mapsTo (finalIdMap rand doc) w.source.block = none :=
        (mapsTo_eq_none_iff _ _).mpr (Or.inl (finalIdMap_none rand doc hs))
      rw [updateWire_source, hnone]
    · intro ht
      have hnone : mapsTo (finalIdMap rand doc) w.target.block = none :=
        (mapsTo_eq_none_iff _ _).mpr (Or.inl (finalIdMap_none rand doc ht))
      rw [updateWire_target, hnone]
  · intro hfresh j L L' hL hL' x hxmem hxblk
    have hxnone : mapsTo (finalIdMap rand doc) x = none :=
      (mapsTo_eq_none_iff _ _).mpr (Or.inl (finalIdMap_none rand doc hxblk))
    by_cases hj : j = 0 ∨ j = 1
    · rw [loadPackage_layers_01 rand doc j hj, hL, Option.map_some'] at hL'
      have hLL : L' = updateLayer (finalIdMap rand doc) L := (Option.some.inj hL').symm
      subst hLL
      have hLmem : L ∈ doc.editor.layers := mem_of_getElem? hL
      show jsGet (updateModels (finalIdMap rand doc) L.models) x = jsGet L.models x
      refine updateModels_preserves_unmapped _ _ x hxnone ?_
      intro oldId _ u hu heq
      exact hfresh L hLmem u
        (finalIdMap_values rand doc (mapsTo_some_jsGet hu)) (heq ▸ hxmem)
    · push_neg at hj
      rw [loadPackage_layers_ge2 rand doc j (by omega), hL] at hL'
      rw [Option.some.inj hL']

/-- Witness for the amended C4: the `"orphan"` wire endpoint and the
unmapped `"keep"` layer key both pass through unchanged. -/
theorem C4_witness :
    (⟨⟨"orphan", "p"⟩, ⟨uuidSeqA, "q"⟩⟩ : Wire).source.block = "orphan" ∧
    jsGet (⟨[("keep", ⟨"keep", 2⟩), (uuidSeqA, ⟨uuidSeqA, 1⟩)]⟩ : Layer).models "keep" =
      jsGet (⟨[("a", ⟨"a", 1⟩), ("keep", ⟨"keep", 2⟩)]⟩ : Layer).models "keep" := by
  have h := C4_unmapped_ids_pass_through randSeq docPass
  exact ⟨(h.1 0 ⟨⟨"orphan", "p"⟩, ⟨"a", "q"⟩⟩ ⟨⟨"orphan", "p"⟩, ⟨uuidSeqA, "q"⟩⟩
      (by decide) (by decide)).1 (by decide),
    h.2 (by decide) 0 ⟨[("a", ⟨"a", 1⟩), ("keep", ⟨"keep", 2⟩)]⟩
      ⟨[("keep", ⟨"keep", 2⟩), (uuidSeqA, ⟨uuidSeqA, 1⟩)]⟩
      (by decide) (by decide) "keep" (by decide) (by decide)⟩

/-- Claim C6: in output layers 0 and 1, every key that arose from
renaming an input key (one whose old key matched a block id and was
mapped) stores a model whose own `id` field equals the key. -/
theorem C6_renamed_key_id_matches (rand : Nat → Nat) (doc : PackageDoc)
    (j : Nat) (hj : j = 0 ∨ j = 1) (L L' : Layer)
    (hL : doc.editor.layers[j]? = some L)
    (hL' : (loadPackage rand doc).model.layers[j]? = some L')
    (hkeysL : (keys L.models).Nodup)
    (oldKey u : String)
    (hold : oldKey ∈ keys L.models)
    (hmap : mapsTo (finalIdMap rand doc) oldKey = some u) :
    ∀ v, jsGet L'.models u = some v → v.id = u := by
  rw [loadPackage_layers_01 rand doc j hj, hL, Option.map_some'] at hL'
  have hLL : L' = updateLayer (finalIdMap rand doc) L := (Option.some.inj hL').symm
  subst hLL
  exact updateModels_renamed_id _ _ hkeysL hold hmap

/-- Witness for C6 at a concrete document: key `"a"` is renamed to the
generated UUID, and the model stored under the new key carries it as
its id. -/
theorem C6_witness : Model.id ⟨uuidSeqA, 1⟩ = uuidSeqA :=
  C6_renamed_key_id_matches randSeq docPass 0 (Or.inl rfl)
    ⟨[("a", ⟨"a", 1⟩), ("keep", ⟨"keep", 2⟩)]⟩
    ⟨[("keep", ⟨"keep", 2⟩), (uuidSeqA, ⟨uuidSeqA, 1⟩)]⟩
    (by decide) (by decide) (by decide) "a" uuidSeqA (by decide) (by decide)
    ⟨uuidSeqA, 1⟩ (by decide)

/-- Claim C9: an error from a collaborator dialog (including user
cancellation) is caught at the block-creation boundary and not
re-thrown — `createBlock` and `editBlock` are total; `createBlock`
returns no block and `editBlock` leaves the node unchanged. -/
theorem C9_dialog_errors_absorbed (env : Env) (e : String) (blockCount : Nat) (node : Node) :
    (env.constantDialog = Except.error e →
      createBlock env "basic.constant" blockCount = none ∧
      (node.kind = NodeKind.constant → editBlock env node = node)) ∧
    (env.codeDialog = Except.error e →
      createBlock env "basic.code" blockCount = none ∧
      (node.kind = NodeKind.code → editBlock env node = node)) ∧
    (env.ioDialog = Except.error e →
      createBlock env "basic.input" blockCount = none ∧
      createBlock env "basic.output" blockCount = none ∧
      ((node.kind = NodeKind.input ∨ node.kind = NodeKind.output) →
        editBlock env node = node)) := by
  refine ⟨?_, ?_, ?_⟩
  · intro h
    exact ⟨by simp [createBlock, h], fun hk => by simp [editBlock, hk, h]⟩
  · intro h
    exact ⟨by simp [createBlock, h], fun hk => by simp [editBlock, hk, h]⟩
  · intro h
    refine ⟨by simp [createBlock, h], by simp [createBlock, h], fun hk => ?_⟩
    rcases hk with hk | hk <;> simp [editBlock, hk, h]

/-- Witness for C9 in the all-errors environment. -/
theorem C9_witness :
    createBlock envErr "basic.constant" 0 = none ∧
    createBlock envErr "basic.code" 0 = none ∧
    createBlock envErr "basic.input" 0 = none ∧
    createBlock envErr "basic.output" 0 = none ∧
    editBlock envErr ⟨NodeKind.constant, dataC⟩ = ⟨NodeKind.constant, dataC⟩ ∧
    editBlock envErr ⟨NodeKind.code, dataC⟩ = ⟨NodeKind.code, dataC⟩ ∧
    editBlock envErr ⟨NodeKind.input, dataC⟩ = ⟨NodeKind.input, dataC⟩ ∧
    editBlock envErr ⟨NodeKind.output, dataC⟩ = ⟨NodeKind.output, dataC⟩ := by
  have h1 := C9_dialog_errors_absorbed envErr "cancelled" 0 ⟨NodeKind.constant, dataC⟩
  have h2 := C9_dialog_errors_absorbed envErr "cancelled" 0 ⟨NodeKind.code, dataC⟩
  have h3 := C9_dialog_errors_absorbed envErr "cancelled" 0 ⟨NodeKind.input, dataC⟩
  have h4 := C9_dialog_errors_absorbed envErr "cancelled" 0 ⟨NodeKind.output, dataC⟩
  exact ⟨(h1.1 rfl).1, (h1.2.1 rfl).1, (h3.2.2 rfl).1, (h3.2.2 rfl).2.1,
    (h1.1 rfl).2 rfl, (h2.2.1 rfl).2 rfl, (h3.2.2 rfl).2.2 (Or.inl rfl),
    (h4.2.2 rfl).2.2 (Or.inr rfl)⟩

/-- Claim C10: a successful constant-block creation returns a constant
model whose data id is the zero-padded decimal block count, a dash, and
the fresh UID; consequently, for block counts below 10000, ids of
earlier blocks are lexicographically smaller than those of later ones,
whatever the UID suffixes are. -/
theorem C10_constant_block_id (env : Env) (d : DialogData) (blockCount : Nat)
    (h : env.constantDialog = Except.ok d) :
    createBlock env "basic.constant" blockCount =
      some (BlockModel.constant { d with id := constantIdFor blockCount env.uid }) ∧
    (∀ (i j : Nat) (u1 u2 : String), i < j → j < 10000 →
      constantIdFor i u1 < constantIdFor j u2) := by
  constructor
  · simp [createBlock, h]
  · intro i j u1 u2 hij hj
    exact constantIdFor_lt i j u1 u2 hij hj

/-- Witness for C10: concrete creation result and a concrete ordered
pair of ids (with suffixes chosen against the order). -/
theorem C10_witness :
    createBlock envOk "basic.constant" 7 =
      some (BlockModel.constant { dataC with id := constantIdFor 7 envOk.uid }) ∧
    constantIdFor 3 "zz" < constantIdFor 12 "aa" := by
  have h := C10_constant_block_id envOk dataC 7 rfl
  exact ⟨h.1, h.2 3 12 "zz" "aa" (by decide) (by decide)⟩

end VC
